import Mathlib

/-!
Verification of the diffusion core `diffusion_tf/diffusion_utils.py`.

Modelling conventions.  Numpy/TensorFlow float computations are embedded over
the reals.  A per-timestep coefficient array (length `T = betas.length`) is
read through `List.getD`, mirroring `np.ndarray` indexing; derived coefficient
arrays are given as functions of the timestep index, entrywise equal to the
numpy arrays computed in `GaussianDiffusion.__init__`.  A rank-4 tensor of
shape `[B, H, W, C]` is a function `Fin B → Fin H → Fin W → Fin C → ℝ`, so a
tensor's shape is carried by its type.  The external random source is modelled
by passing the drawn noise tensors as explicit arguments, and `NotImplementedError`
raised on an unknown `loss_type` is modelled with `Option` (`none` = error).
-/

namespace DiffusionTF

/-- `normal_kl(mean1, logvar1, mean2, logvar2)`: KL divergence between normal
distributions parameterized by mean and log-variance,
`0.5 * (-1 + logvar2 - logvar1 + exp(logvar1 - logvar2) + (mean1-mean2)^2 * exp(-logvar2))`. -/
noncomputable def normal_kl (mean1 logvar1 mean2 logvar2 : ℝ) : ℝ :=
  0.5 * (-1 + logvar2 - logvar1 + Real.exp (logvar1 - logvar2)
    + (mean1 - mean2) ^ 2 * Real.exp (-logvar2))

/-- `np.cumprod`: `cumprodList [a, b, c] = [a, a*b, a*b*c]`. -/
def cumprodList : List ℝ → List ℝ
  | [] => []
  | x :: xs => x :: (cumprodList xs).map (fun y => x * y)

/-- The state of a `GaussianDiffusion` object after `__init__`: the validated
beta array and the `loss_type` tag stored for later dispatch. -/
structure GaussianDiffusion where
  betas : List ℝ
  loss_type : String

/-- `self.num_timesteps`: the length of the beta array. -/
def num_timesteps (d : GaussianDiffusion) : ℕ := d.betas.length

/-- `betas[i]` as a function of the index (reads through `List.getD`). -/
def beta (d : GaussianDiffusion) (i : ℕ) : ℝ := d.betas.getD i 0

/-- `alphas = 1. - betas`, entrywise. -/
def alpha (d : GaussianDiffusion) (i : ℕ) : ℝ := 1 - beta d i

/-- `alphas_cumprod = np.cumprod(alphas)`: entry `t` is the product of
`alphas[0..t]` inclusive. -/
def alphas_cumprod (d : GaussianDiffusion) (t : ℕ) : ℝ :=
  ∏ i ∈ Finset.range (t + 1), alpha d i

/-- `alphas_cumprod_prev = np.append(1., alphas_cumprod[:-1])`, entrywise:
entry `0` is `1`, entry `t+1` is `alphas_cumprod[t]`. -/
def alphas_cumprod_prev (d : GaussianDiffusion) (t : ℕ) : ℝ :=
  if t = 0 then 1 else alphas_cumprod d (t - 1)

/-- `sqrt_alphas_cumprod = np.sqrt(alphas_cumprod)`. -/
noncomputable def sqrt_alphas_cumprod (d : GaussianDiffusion) (t : ℕ) : ℝ :=
  Real.sqrt (alphas_cumprod d t)

/-- `sqrt_one_minus_alphas_cumprod = np.sqrt(1. - alphas_cumprod)`. -/
noncomputable def sqrt_one_minus_alphas_cumprod (d : GaussianDiffusion) (t : ℕ) : ℝ :=
  Real.sqrt (1 - alphas_cumprod d t)

/-- `log_one_minus_alphas_cumprod = np.log(1. - alphas_cumprod)`. -/
noncomputable def log_one_minus_alphas_cumprod (d : GaussianDiffusion) (t : ℕ) : ℝ :=
  Real.log (1 - alphas_cumprod d t)

/-- `sqrt_recip_alphas_cumprod = np.sqrt(1. / alphas_cumprod)`. -/
noncomputable def sqrt_recip_alphas_cumprod (d : GaussianDiffusion) (t : ℕ) : ℝ :=
  Real.sqrt (1 / alphas_cumprod d t)

/-- `sqrt_recipm1_alphas_cumprod = np.sqrt(1. / alphas_cumprod - 1)`. -/
noncomputable def sqrt_recipm1_alphas_cumprod (d : GaussianDiffusion) (t : ℕ) : ℝ :=
  Real.sqrt (1 / alphas_cumprod d t - 1)

/-- `posterior_variance = betas * (1. - alphas_cumprod_prev) / (1. - alphas_cumprod)`. -/
noncomputable def posterior_variance (d : GaussianDiffusion) (t : ℕ) : ℝ :=
  beta d t * (1 - alphas_cumprod_prev d t) / (1 - alphas_cumprod d t)

/-- `posterior_log_variance_clipped = np.log(np.maximum(posterior_variance, 1e-20))`. -/
noncomputable def posterior_log_variance_clipped (d : GaussianDiffusion) (t : ℕ) : ℝ :=
  Real.log (max (posterior_variance d t) 1e-20)

/-- `posterior_mean_coef1 = betas * np.sqrt(alphas_cumprod_prev) / (1. - alphas_cumprod)`. -/
noncomputable def posterior_mean_coef1 (d : GaussianDiffusion) (t : ℕ) : ℝ :=
  beta d t * Real.sqrt (alphas_cumprod_prev d t) / (1 - alphas_cumprod d t)

/-- `posterior_mean_coef2 = (1. - alphas_cumprod_prev) * np.sqrt(alphas) / (1. - alphas_cumprod)`. -/
noncomputable def posterior_mean_coef2 (d : GaussianDiffusion) (t : ℕ) : ℝ :=
  (1 - alphas_cumprod_prev d t) * Real.sqrt (alpha d t) / (1 - alphas_cumprod d t)

/-- `alphas = 1. - betas` as a list (used by the construction-time shape check). -/
def alphasList (betas : List ℝ) : List ℝ := betas.map (fun b => 1 - b)

/-- `alphas_cumprod_prev = np.append(1., alphas_cumprod[:-1])` as a list. -/
def alphas_cumprod_prev_list (betas : List ℝ) : List ℝ :=
  1 :: (cumprodList (alphasList betas)).dropLast

/-- The assertions executed by `GaussianDiffusion.__init__`:
`assert (betas > 0).all() and (betas <= 1).all()` followed by
`assert alphas_cumprod_prev.shape == (timesteps,)`.  (On an empty array the
numpy `.all()` calls are vacuously true; it is the shape assertion that fails,
because `np.append(1., ...)` always has at least one entry.) -/
def constructionOk (betas : List ℝ) : Prop :=
  (∀ b ∈ betas, 0 < b ∧ b ≤ 1) ∧
    (alphas_cumprod_prev_list betas).length = betas.length

open Classical in
/-- `GaussianDiffusion.__init__`: returns the constructed object when every
assertion passes, `none` (an `AssertionError`) otherwise.  The betas and the
`loss_type` tag are stored unchanged; `loss_type` is not inspected here. -/
noncomputable def mkGaussianDiffusion (betas : List ℝ) (lt : String) :
    Option GaussianDiffusion :=
  if constructionOk betas then some ⟨betas, lt⟩ else none

/-- A rank-4 tensor of shape `[B, H, W, C]`. -/
abbrev Tensor (B H W C : ℕ) := Fin B → Fin H → Fin W → Fin C → ℝ

/-- The external denoising function collaborator
`(x : tensor[B,H,W,C], t : tensor[B]) -> tensor[B,H,W,C]`. -/
abbrev DenoiseFn (B H W C : ℕ) := Tensor B H W C → (Fin B → ℕ) → Tensor B H W C

variable {B H W C : ℕ}

/-- `GaussianDiffusion._extract(a, t, x_shape)`: gather `out[i] = a[t[i]]` and
reshape to `[B, 1, 1, 1]`, i.e. broadcast over the non-batch dimensions. -/
def extract (a : ℕ → ℝ) (t : Fin B → ℕ) : Tensor B H W C :=
  fun b _ _ _ => a (t b)

/-- `q_sample(x_start, t, noise)`:
`extract(sqrt_alphas_cumprod, t) * x_start + extract(sqrt_one_minus_alphas_cumprod, t) * noise`.
(The source draws `noise` from the random source when it is not supplied; the
draw is modelled by the explicit `noise` argument.) -/
noncomputable def q_sample (d : GaussianDiffusion) (x_start : Tensor B H W C)
    (t : Fin B → ℕ) (noise : Tensor B H W C) : Tensor B H W C :=
  fun b i j k =>
    extract (sqrt_alphas_cumprod d) t b i j k * x_start b i j k +
      extract (sqrt_one_minus_alphas_cumprod d) t b i j k * noise b i j k

/-- `predict_start_from_noise(x_t, t, noise)`:
`extract(sqrt_recip_alphas_cumprod, t) * x_t - extract(sqrt_recipm1_alphas_cumprod, t) * noise`. -/
noncomputable def predict_start_from_noise (d : GaussianDiffusion)
    (x_t : Tensor B H W C) (t : Fin B → ℕ) (noise : Tensor B H W C) :
    Tensor B H W C :=
  fun b i j k =>
    extract (sqrt_recip_alphas_cumprod d) t b i j k * x_t b i j k -
      extract (sqrt_recipm1_alphas_cumprod d) t b i j k * noise b i j k

/-- `q_posterior(x_start, x_t, t)`: posterior mean
`extract(posterior_mean_coef1, t) * x_start + extract(posterior_mean_coef2, t) * x_t`,
posterior variance and clipped log-variance (both broadcast from the
per-timestep arrays). -/
noncomputable def q_posterior (d : GaussianDiffusion) (x_start x_t : Tensor B H W C)
    (t : Fin B → ℕ) : Tensor B H W C × Tensor B H W C × Tensor B H W C :=
  (fun b i j k =>
      extract (posterior_mean_coef1 d) t b i j k * x_start b i j k +
        extract (posterior_mean_coef2 d) t b i j k * x_t b i j k,
    extract (posterior_variance d) t,
    extract (posterior_log_variance_clipped d) t)

/-- `tf.clip_by_value(x, lo, hi)`, scalarwise. -/
noncomputable def clip_by_value (x lo hi : ℝ) : ℝ := min (max x lo) hi

/-- The `loss_type == 'noisepred'` branch of `p_mean_variance`:
`x_recon = predict_start_from_noise(x, t, denoise_fn(x, t))`, optionally
clipped to `[-1, 1]`, fed into `q_posterior(x_recon, x, t)`. -/
noncomputable def p_mean_variance_core (d : GaussianDiffusion) (f : DenoiseFn B H W C)
    (x : Tensor B H W C) (t : Fin B → ℕ) (clip_denoised : Bool) :
    Tensor B H W C × Tensor B H W C × Tensor B H W C :=
  q_posterior d
    (if clip_denoised then
        fun b i j k => clip_by_value (predict_start_from_noise d x t (f x t) b i j k) (-1) 1
      else predict_start_from_noise d x t (f x t))
    x t

/-- `p_mean_variance(denoise_fn, x, t, clip_denoised)`: dispatches on
`loss_type`; any tag other than `'noisepred'` raises `NotImplementedError`
(modelled as `none`). -/
noncomputable def p_mean_variance (d : GaussianDiffusion) (f : DenoiseFn B H W C)
    (x : Tensor B H W C) (t : Fin B → ℕ) (clip_denoised : Bool) :
    Option (Tensor B H W C × Tensor B H W C × Tensor B H W C) :=
  if d.loss_type = "noisepred" then some (p_mean_variance_core d f x t clip_denoised)
  else none

/-- `noise_like(shape, noise_fn, repeat)`: when `repeat` is set, one lane
`noise_fn(shape=(1, H, W, C))` is drawn and broadcast across the batch,
otherwise a full batch `noise_fn(shape)` is drawn.  Both possible draws are
passed in explicitly. -/
def noise_like (noise_full : Tensor B H W C)
    (noise_single : Fin H → Fin W → Fin C → ℝ) (rep : Bool) : Tensor B H W C :=
  if rep then fun _ i j k => noise_single i j k else noise_full

/-- `1 - tf.cast(tf.equal(t, 0), tf.float32)`, reshaped to `[B, 1, 1, 1]`:
`0` for batch elements whose `t` is `0`, `1` otherwise. -/
def nonzero_mask (t : Fin B → ℕ) : Fin B → ℝ :=
  fun b => 1 - (if t b = 0 then 1 else 0)

/-- The successful-branch value of `p_sample`:
`model_mean + nonzero_mask * exp(0.5 * model_log_variance) * noise` with
`(model_mean, _, model_log_variance) = p_mean_variance(...)` and
`noise = noise_like(x.shape, noise_fn, repeat_noise)`. -/
noncomputable def p_sample_core (d : GaussianDiffusion) (f : DenoiseFn B H W C)
    (x : Tensor B H W C) (t : Fin B → ℕ) (clip_denoised : Bool)
    (noise_full : Tensor B H W C) (noise_single : Fin H → Fin W → Fin C → ℝ)
    (repeat_noise : Bool) : Tensor B H W C :=
  fun b i j k =>
    (p_mean_variance_core d f x t clip_denoised).1 b i j k +
      nonzero_mask t b *
        Real.exp (0.5 * (p_mean_variance_core d f x t clip_denoised).2.2 b i j k) *
        noise_like noise_full noise_single repeat_noise b i j k

/-- `p_sample(denoise_fn, x, t, noise_fn, clip_denoised, repeat_noise)`: one
reverse step; propagates the `NotImplementedError` of `p_mean_variance` for a
`loss_type` other than `'noisepred'`. -/
noncomputable def p_sample (d : GaussianDiffusion) (f : DenoiseFn B H W C)
    (x : Tensor B H W C) (t : Fin B → ℕ) (clip_denoised : Bool)
    (noise_full : Tensor B H W C) (noise_single : Fin H → Fin W → Fin C → ℝ)
    (repeat_noise : Bool) : Option (Tensor B H W C) :=
  if d.loss_type = "noisepred" then
    some (p_sample_core d f x t clip_denoised noise_full noise_single repeat_noise)
  else none

/-- `nn.meanflat`.  Modelled from the spec: the file `diffusion_tf/nn.py`
(imported as `nn`) is not part of the sources; the spec describes the
`noisepred` loss as "the per-example mean squared error between `noise` and
the prediction, reduced over all non-batch dimensions (shape `[B]` result)",
so `meanflat` takes the mean over the `H`, `W`, `C` dimensions. -/
noncomputable def meanflat (x : Tensor B H W C) : Fin B → ℝ :=
  fun b => (∑ i : Fin H, ∑ j : Fin W, ∑ k : Fin C, x b i j k) / ((H : ℝ) * W * C)

/-- `p_losses(denoise_fn, x_start, t, noise)`: computes
`x_noisy = q_sample(x_start, t, noise)`, `x_recon = denoise_fn(x_noisy, t)`,
and for `loss_type == 'noisepred'` returns
`meanflat(squared_difference(noise, x_recon))`; any other tag raises
`NotImplementedError` (modelled as `none`).  (As in `q_sample`, a noise draw
replacing an omitted `noise` argument is passed explicitly.) -/
noncomputable def p_losses (d : GaussianDiffusion) (f : DenoiseFn B H W C)
    (x_start : Tensor B H W C) (t : Fin B → ℕ) (noise : Tensor B H W C) :
    Option (Fin B → ℝ) :=
  if d.loss_type = "noisepred" then
    some (meanflat (fun b i j k =>
      (noise b i j k - f (q_sample d x_start t noise) t b i j k) ^ 2))
  else none

/-- The `tf.while_loop` of `p_sample_loop`, with the `int32` counter replaced
by the number of remaining iterations: with `n+1` iterations left the loop
body runs `p_sample` at `t = tf.fill([B], n)` (default `clip_denoised=True`,
`repeat_noise=False`) and threads its output; `ns`/`nss` supply the per-step
noise draws from `noise_fn`. -/
noncomputable def p_sample_loop_go (d : GaussianDiffusion) (f : DenoiseFn B H W C)
    (ns : ℕ → Tensor B H W C) (nss : ℕ → Fin H → Fin W → Fin C → ℝ) :
    ℕ → Tensor B H W C → Option (Tensor B H W C)
  | 0, img => some img
  | n + 1, img =>
    (p_sample d f img (fun _ => n) true (ns n) (nss n) false).bind
      (p_sample_loop_go d f ns nss n)

/-- `p_sample_loop(denoise_fn, shape, noise_fn)`: starts from the initial
draw `img_0 = noise_fn(shape)` (the explicit `img0` argument) and runs the
countdown loop from `t = num_timesteps - 1` while `t ≥ 0`. -/
noncomputable def p_sample_loop (d : GaussianDiffusion) (f : DenoiseFn B H W C)
    (ns : ℕ → Tensor B H W C) (nss : ℕ → Fin H → Fin W → Fin C → ℝ)
    (img0 : Tensor B H W C) : Option (Tensor B H W C) :=
  p_sample_loop_go d f ns nss (num_timesteps d) img0

/-- One countdown `tf.while_loop` of `p_sample_loop_trajectory`, recording the
`times_[-1]` value at which each body iteration fires: while `cond t` holds the
body runs one `p_sample` step at timestep `t` and appends `t - 1`.  `fuel`
bounds the number of iterations (each caller passes enough fuel for the loop
to run to its condition's failure). -/
def whileDownSteps (cond : ℤ → Bool) : ℕ → ℤ → List ℤ
  | 0, _ => []
  | fuel + 1, t => if cond t then t :: whileDownSteps cond fuel (t - 1) else []

/-- `[a, a-1, ..., b]` (empty when `a < b`). -/
def intsDown (a b : ℤ) : List ℤ :=
  (List.range (a + 1 - b).toNat).map (fun k : ℕ => a - (k : ℤ))

/-- The control flow of
`p_sample_loop_trajectory(denoise_fn, shape, noise_fn, repeat_noise_steps)`:
the list of `(t, repeat_noise)` arguments of its successive `p_sample` calls.
The first `tf.while_loop` runs while `num_timesteps - times_[-1] ≤
repeat_noise_steps`, calling `p_sample` with `repeat_noise=True`; the second
resumes from the last recorded timestep and runs while `times_[-1] ≥ 0`,
calling `p_sample` with `repeat_noise=False`. -/
def p_sample_trajectory_flags (T rns : ℤ) : List (ℤ × Bool) :=
  let p1 := whileDownSteps (fun t => decide (T - t ≤ rns)) (rns.toNat + 1) (T - 1)
  let t1 : ℤ := T - 1 - (p1.length : ℤ)
  let p2 := whileDownSteps (fun t => decide (0 ≤ t)) (t1.toNat + 1) t1
  p1.map (fun t => (t, true)) ++ p2.map (fun t => (t, false))

lemma beta_mem (d : GaussianDiffusion) {i : ℕ} (hi : i < num_timesteps d) :
    beta d i ∈ d.betas := by
  unfold beta
  rw [List.getD_eq_getElem _ _ hi]
  exact List.getElem_mem _

lemma beta_of_le (d : GaussianDiffusion) {i : ℕ} (hi : num_timesteps d ≤ i) :
    beta d i = 0 :=
  List.getD_eq_default _ _ hi

lemma alpha_bounds (d : GaussianDiffusion) (h : ∀ x ∈ d.betas, 0 < x ∧ x ≤ 1)
    (i : ℕ) : 0 ≤ alpha d i ∧ alpha d i ≤ 1 := by
  unfold alpha
  by_cases hi : i < num_timesteps d
  · have hb := h _ (beta_mem d hi)
    constructor <;> linarith [hb.1, hb.2]
  · rw [beta_of_le d (le_of_not_lt hi)]
    norm_num

lemma alpha_pos (d : GaussianDiffusion) (h : ∀ x ∈ d.betas, 0 < x ∧ x < 1)
    (i : ℕ) : 0 < alpha d i := by
  unfold alpha
  by_cases hi : i < num_timesteps d
  · linarith [(h _ (beta_mem d hi)).2]
  · rw [beta_of_le d (le_of_not_lt hi)]
    norm_num

lemma alpha_lt_one (d : GaussianDiffusion) (h : ∀ x ∈ d.betas, 0 < x ∧ x ≤ 1)
    {i : ℕ} (hi : i < num_timesteps d) : alpha d i < 1 := by
  unfold alpha
  linarith [(h _ (beta_mem d hi)).1]

lemma alphas_cumprod_succ (d : GaussianDiffusion) (t : ℕ) :
    alphas_cumprod d (t + 1) = alphas_cumprod d t * alpha d (t + 1) :=
  Finset.prod_range_succ _ _

lemma alphas_cumprod_pos (d : GaussianDiffusion)
    (h : ∀ x ∈ d.betas, 0 < x ∧ x < 1) (t : ℕ) : 0 < alphas_cumprod d t :=
  Finset.prod_pos (fun i _ => alpha_pos d h i)

lemma alphas_cumprod_nonneg (d : GaussianDiffusion)
    (h : ∀ x ∈ d.betas, 0 < x ∧ x ≤ 1) (t : ℕ) : 0 ≤ alphas_cumprod d t :=
  Finset.prod_nonneg (fun i _ => (alpha_bounds d h i).1)

lemma alphas_cumprod_le_one (d : GaussianDiffusion)
    (h : ∀ x ∈ d.betas, 0 < x ∧ x ≤ 1) (t : ℕ) : alphas_cumprod d t ≤ 1 :=
  Finset.prod_le_one (fun i _ => (alpha_bounds d h i).1)
    (fun i _ => (alpha_bounds d h i).2)

lemma alphas_cumprod_lt_one (d : GaussianDiffusion)
    (h : ∀ x ∈ d.betas, 0 < x ∧ x ≤ 1) (t : ℕ) (hT : 0 < num_timesteps d) :
    alphas_cumprod d t < 1 := by
  have hb0 : 0 < beta d 0 := (h _ (beta_mem d hT)).1
  have hle : alphas_cumprod d t ≤ alpha d 0 := by
    rw [alphas_cumprod, Finset.prod_range_succ']
    exact mul_le_of_le_one_left (alpha_bounds d h 0).1
      (Finset.prod_le_one (fun i _ => (alpha_bounds d h _).1)
        (fun i _ => (alpha_bounds d h _).2))
  have : alpha d 0 < 1 := by unfold alpha; linarith
  linarith

/-- C10: the Gaussian KL helper `normal_kl` is zero on identical
distributions: for every mean `m` and log-variance `v`,
`normal_kl m v m v = 0` exactly over the reals. -/
theorem normal_kl_self (m v : ℝ) : normal_kl m v m v = 0 := by
  unfold normal_kl
  rw [sub_self, sub_self, Real.exp_zero]
  ring

/-- C4 (amended): for every beta sequence with all values in the open
interval (0,1), the derived `alphas_cumprod` sequence is strictly decreasing
and every entry lies in (0,1].  (The claim's hypothesis "values in (0,1]" is
weakened to exclude the endpoint 1, which falsifies the claim, see the
counterexample.) -/
theorem alphas_cumprod_decreasing (d : GaussianDiffusion)
    (h : ∀ x ∈ d.betas, 0 < x ∧ x < 1) :
    (∀ t, t + 1 < num_timesteps d →
        alphas_cumprod d (t + 1) < alphas_cumprod d t) ∧
      ∀ t, t < num_timesteps d →
        0 < alphas_cumprod d t ∧ alphas_cumprod d t ≤ 1 := by
  have h' : ∀ x ∈ d.betas, 0 < x ∧ x ≤ 1 :=
    fun x hx => ⟨(h x hx).1, le_of_lt (h x hx).2⟩
  constructor
  · intro t ht
    rw [alphas_cumprod_succ]
    exact mul_lt_of_lt_one_right (alphas_cumprod_pos d h t) (alpha_lt_one d h' ht)
  · intro t _
    exact ⟨alphas_cumprod_pos d h t, alphas_cumprod_le_one d h' t⟩

/-- Witness for `alphas_cumprod_decreasing` at betas = [1/2, 1/2]. -/
theorem alphas_cumprod_decreasing_witness :
    (∀ t, t + 1 < num_timesteps ⟨[(1:ℝ)/2, 1/2], "noisepred"⟩ →
        alphas_cumprod ⟨[(1:ℝ)/2, 1/2], "noisepred"⟩ (t + 1) <
          alphas_cumprod ⟨[(1:ℝ)/2, 1/2], "noisepred"⟩ t) ∧
      ∀ t, t < num_timesteps ⟨[(1:ℝ)/2, 1/2], "noisepred"⟩ →
        0 < alphas_cumprod ⟨[(1:ℝ)/2, 1/2], "noisepred"⟩ t ∧
          alphas_cumprod ⟨[(1:ℝ)/2, 1/2], "noisepred"⟩ t ≤ 1 :=
  alphas_cumprod_decreasing _ (by norm_num)

/-- C4 as stated is false: the beta sequence [1] has all its values in (0,1],
yet `alphas_cumprod[0] = 1 - 1 = 0` does not lie in (0,1]. -/
theorem alphas_cumprod_decreasing_cex :
    ((0:ℝ) < 1 ∧ (1:ℝ) ≤ 1) ∧
      ¬ 0 < alphas_cumprod ⟨[(1:ℝ)], "noisepred"⟩ 0 := by
  refine ⟨⟨one_pos, le_refl 1⟩, ?_⟩
  simp [alphas_cumprod, alpha, beta]

/-- C5: for every beta sequence accepted at construction (values in (0,1])
and every timestep `t < T`,
`posterior_variance[t] = betas[t] * (1 - alphas_cumprod_prev[t]) / (1 - alphas_cumprod[t])`
is at most `betas[t]`. -/
theorem posterior_variance_le_beta (d : GaussianDiffusion)
    (h : ∀ x ∈ d.betas, 0 < x ∧ x ≤ 1) {t : ℕ} (ht : t < num_timesteps d) :
    posterior_variance d t ≤ beta d t := by
  have hb : 0 < beta d t := (h _ (beta_mem d ht)).1
  have hlt : alphas_cumprod d t < 1 :=
    alphas_cumprod_lt_one d h t (lt_of_le_of_lt (Nat.zero_le _) ht)
  have hden : 0 < 1 - alphas_cumprod d t := by linarith
  have hac_le_prev : alphas_cumprod d t ≤ alphas_cumprod_prev d t := by
    rcases Nat.eq_zero_or_pos t with h0 | h0
    · subst h0
      simp only [alphas_cumprod_prev, if_pos rfl]
      exact alphas_cumprod_le_one d h 0
    · obtain ⟨s, rfl⟩ : ∃ s, t = s + 1 := ⟨t - 1, by omega⟩
      simp only [alphas_cumprod_prev, Nat.succ_ne_zero, if_false, Nat.add_sub_cancel]
      rw [alphas_cumprod_succ]
      exact mul_le_of_le_one_right (alphas_cumprod_nonneg d h _) (alpha_bounds d h _).2
  rw [posterior_variance, div_le_iff₀ hden]
  have hmul : beta d t * (1 - alphas_cumprod_prev d t) ≤
      beta d t * (1 - alphas_cumprod d t) :=
    mul_le_mul_of_nonneg_left (by linarith) (le_of_lt hb)
  linarith

/-- Witness for `posterior_variance_le_beta` at betas = [1/2], t = 0. -/
theorem posterior_variance_le_beta_witness :
    posterior_variance ⟨[(1:ℝ)/2], "noisepred"⟩ 0 ≤
      beta ⟨[(1:ℝ)/2], "noisepred"⟩ 0 :=
  posterior_variance_le_beta _ (by norm_num) (by simp [num_timesteps])

/-- C1 (amended): for every beta sequence with all values in the open
interval (0,1), every timestep batch with indices in [0,T-1], every `x_start`
and every `noise` of the same shape, `predict_start_from_noise` applied to
`q_sample(x_start, t, noise)` with the same `t` and `noise` reproduces
`x_start` exactly over the reals.  (The claim's "values in (0,1]" is weakened
to exclude 1: a beta equal to 1 makes `alphas_cumprod` vanish and the
round-trip fails, see the counterexample.) -/
theorem predict_start_roundtrip {B H W C : ℕ} (d : GaussianDiffusion)
    (h : ∀ x ∈ d.betas, 0 < x ∧ x < 1) (x_start noise : Tensor B H W C)
    (t : Fin B → ℕ) (_ht : ∀ b, t b < num_timesteps d) :
    predict_start_from_noise d (q_sample d x_start t noise) t noise = x_start := by
  funext b i j k
  have ha : 0 < alphas_cumprod d (t b) := alphas_cumprod_pos d h (t b)
  have hane : alphas_cumprod d (t b) ≠ 0 := ne_of_gt ha
  simp only [predict_start_from_noise, q_sample, extract, sqrt_recip_alphas_cumprod,
    sqrt_recipm1_alphas_cumprod, sqrt_alphas_cumprod, sqrt_one_minus_alphas_cumprod]
  set a := alphas_cumprod d (t b) with hadef
  have h1 : Real.sqrt (1 / a) * Real.sqrt a = 1 := by
    rw [← Real.sqrt_mul (by positivity) a, one_div, inv_mul_cancel₀ hane, Real.sqrt_one]
  have h2 : Real.sqrt (1 / a) * Real.sqrt (1 - a) = Real.sqrt (1 / a - 1) := by
    rw [← Real.sqrt_mul (by positivity) (1 - a)]
    congr 1
    field_simp
  calc Real.sqrt (1 / a) * (Real.sqrt a * x_start b i j k + Real.sqrt (1 - a) * noise b i j k)
        - Real.sqrt (1 / a - 1) * noise b i j k
      = (Real.sqrt (1 / a) * Real.sqrt a) * x_start b i j k
          + (Real.sqrt (1 / a) * Real.sqrt (1 - a) - Real.sqrt (1 / a - 1)) * noise b i j k := by
        ring
    _ = x_start b i j k := by rw [h1, h2]; ring

/-- Witness for `predict_start_roundtrip` at betas = [1/2], t = 0,
`x_start = 1`, `noise = 0` on a [1,1,1,1] tensor. -/
theorem predict_start_roundtrip_witness :
    predict_start_from_noise ⟨[(1:ℝ)/2], "noisepred"⟩
        (q_sample ⟨[(1:ℝ)/2], "noisepred"⟩ ((fun _ _ _ _ => 1) : Tensor 1 1 1 1)
          (fun _ => 0) (fun _ _ _ _ => 0))
        (fun _ => 0) (fun _ _ _ _ => 0) = (fun _ _ _ _ => 1) :=
  predict_start_roundtrip _ (by norm_num) _ _ _ (fun _ => by simp [num_timesteps])

/-- C1 as stated is false: the beta sequence [1] has all its values in (0,1],
but with `x_start = 1`, `noise = 0`, `t = 0` the value
`predict_start_from_noise(q_sample(x_start, t, noise), t, noise)` is 0, not
`x_start` (in floating point it is NaN: `alphas_cumprod[0] = 0`, so the
reciprocal coefficients blow up and the clean sample is unrecoverable). -/
theorem predict_start_roundtrip_cex :
    ((0:ℝ) < 1 ∧ (1:ℝ) ≤ 1) ∧
      predict_start_from_noise ⟨[(1:ℝ)], "noisepred"⟩
          (q_sample ⟨[(1:ℝ)], "noisepred"⟩ ((fun _ _ _ _ => 1) : Tensor 1 1 1 1)
            (fun _ => 0) (fun _ _ _ _ => 0))
          (fun _ => 0) (fun _ _ _ _ => 0) ≠ (fun _ _ _ _ => 1) := by
  refine ⟨⟨one_pos, le_refl 1⟩, fun heq => ?_⟩
  have h0 : alphas_cumprod ⟨[(1:ℝ)], "noisepred"⟩ 0 = 0 := by
    simp [alphas_cumprod, alpha, beta]
  have hval := congrFun (congrFun (congrFun (congrFun heq 0) 0) 0) 0
  simp [predict_start_from_noise, q_sample, extract, sqrt_recip_alphas_cumprod,
    sqrt_recipm1_alphas_cumprod, sqrt_alphas_cumprod, sqrt_one_minus_alphas_cumprod,
    h0] at hval

/-- C6: `p_sample` returns
`mean + nonzero_mask * exp(0.5 * log_variance) * noise` with the mask equal to
0 on batch elements whose `t` is 0 and 1 otherwise; consequently, on a batch
element with `t = 0` its value is the posterior mean computed by
`p_mean_variance` and is the same for every drawn noise (deterministic given
`denoise_fn` and `x`). -/
theorem p_sample_t0_deterministic {B H W C : ℕ} (d : GaussianDiffusion)
    (f : DenoiseFn B H W C) (x : Tensor B H W C) (t : Fin B → ℕ) (clip : Bool)
    (n1 n2 : Tensor B H W C) (s1 s2 : Fin H → Fin W → Fin C → ℝ) (r1 r2 : Bool)
    (b : Fin B) (i : Fin H) (j : Fin W) (k : Fin C)
    (hlt : d.loss_type = "noisepred") (hb : t b = 0) :
    (∀ b' : Fin B, nonzero_mask t b' = if t b' = 0 then 0 else 1) ∧
      p_sample d f x t clip n1 s1 r1 =
        some (p_sample_core d f x t clip n1 s1 r1) ∧
      p_sample_core d f x t clip n1 s1 r1 b i j k =
        (p_mean_variance_core d f x t clip).1 b i j k ∧
      p_sample_core d f x t clip n1 s1 r1 b i j k =
        p_sample_core d f x t clip n2 s2 r2 b i j k := by
  have hcore : ∀ (nf : Tensor B H W C) ns r,
      p_sample_core d f x t clip nf ns r b i j k =
        (p_mean_variance_core d f x t clip).1 b i j k := by
    intro nf ns r
    simp [p_sample_core, nonzero_mask, hb]
  refine ⟨?_, by simp [p_sample, hlt], hcore n1 s1 r1, ?_⟩
  · intro b'
    unfold nonzero_mask
    by_cases h0 : t b' = 0 <;> simp [h0]
  · rw [hcore, hcore]

/-- Witness for `p_sample_t0_deterministic`: betas = [1/2], identity
denoiser, `x = 0`, `t = 0`, two different noise draws (0 and 1). -/
theorem p_sample_t0_deterministic_witness :
    p_sample_core ⟨[(1:ℝ)/2], "noisepred"⟩ ((fun x _ => x) : DenoiseFn 1 1 1 1)
        (fun _ _ _ _ => 0) (fun _ => 0) true (fun _ _ _ _ => 0)
        (fun _ _ _ => 0) false 0 0 0 0 =
      p_sample_core ⟨[(1:ℝ)/2], "noisepred"⟩ ((fun x _ => x) : DenoiseFn 1 1 1 1)
        (fun _ _ _ _ => 0) (fun _ => 0) true (fun _ _ _ _ => 1)
        (fun _ _ _ => 1) true 0 0 0 0 :=
  (p_sample_t0_deterministic ⟨[(1:ℝ)/2], "noisepred"⟩
    ((fun x _ => x) : DenoiseFn 1 1 1 1) (fun _ _ _ _ => 0) (fun _ => 0) true
    (fun _ _ _ _ => 0) (fun _ _ _ _ => 1) (fun _ _ _ => 0) (fun _ _ _ => 1)
    false true 0 0 0 0 rfl rfl).2.2.2

/-- C7: for loss kind `'noisepred'`, `p_losses(denoise_fn, x_start, t, noise)`
computes `x_noisy = q_sample(x_start, t, noise)` and returns the length-`B`
vector whose `b`-th entry is the mean over the H, W, C dimensions of the
squared difference between `noise` and `denoise_fn(x_noisy, t)`. -/
theorem p_losses_noisepred {B H W C : ℕ} (d : GaussianDiffusion)
    (f : DenoiseFn B H W C) (x_start : Tensor B H W C) (t : Fin B → ℕ)
    (noise : Tensor B H W C) (hlt : d.loss_type = "noisepred") :
    p_losses d f x_start t noise =
      some (fun b => (∑ i : Fin H, ∑ j : Fin W, ∑ k : Fin C,
          (noise b i j k - f (q_sample d x_start t noise) t b i j k) ^ 2) /
        ((H : ℝ) * W * C)) := by
  unfold p_losses
  rw [if_pos hlt]
  rfl

/-- Witness for `p_losses_noisepred`: betas = [1/2], identity denoiser,
zero tensors on shape [1,1,1,1]. -/
theorem p_losses_noisepred_witness :
    (p_losses ⟨[(1:ℝ)/2], "noisepred"⟩ ((fun x _ => x) : DenoiseFn 1 1 1 1)
        (fun _ _ _ _ => 0) (fun _ => 0) (fun _ _ _ _ => 0)).isSome := by
  rw [p_losses_noisepred ⟨[(1:ℝ)/2], "noisepred"⟩ ((fun x _ => x) : DenoiseFn 1 1 1 1)
    (fun _ _ _ _ => 0) (fun _ => 0) (fun _ _ _ _ => 0) rfl]
  rfl

lemma cumprodList_length (l : List ℝ) : (cumprodList l).length = l.length := by
  induction l with
  | nil => rfl
  | cons x xs ih => simp [cumprodList, ih]

lemma constructionOk_iff (betas : List ℝ) :
    constructionOk betas ↔ betas ≠ [] ∧ ∀ b ∈ betas, 0 < b ∧ b ≤ 1 := by
  unfold constructionOk alphas_cumprod_prev_list
  constructor
  · rintro ⟨hmem, hlen⟩
    refine ⟨?_, hmem⟩
    intro hnil
    subst hnil
    simp [alphasList, cumprodList] at hlen
  · rintro ⟨hnil, hmem⟩
    refine ⟨hmem, ?_⟩
    have hne : betas.length ≠ 0 := by
      simpa [List.length_eq_zero] using hnil
    simp only [List.length_cons, List.length_dropLast, cumprodList_length,
      alphasList, List.length_map]
    omega

/-- C8: constructing the coefficient table fails exactly when some beta value
is outside (0,1] or the beta sequence is empty (an empty sequence passes the
vacuous range assertion but fails the `alphas_cumprod_prev` shape assertion);
on success the stored betas are exactly the input, with no coercion. -/
theorem construction_validity (betas : List ℝ) (lt : String) :
    ((mkGaussianDiffusion betas lt).isSome ↔
        betas ≠ [] ∧ ∀ b ∈ betas, 0 < b ∧ b ≤ 1) ∧
      ∀ d, mkGaussianDiffusion betas lt = some d →
        d.betas = betas ∧ d.loss_type = lt := by
  unfold mkGaussianDiffusion
  by_cases hc : constructionOk betas
  · rw [if_pos hc]
    constructor
    · simpa using (constructionOk_iff betas).mp hc
    · intro d hd
      injection hd with hd'
      subst hd'
      exact ⟨rfl, rfl⟩
  · rw [if_neg hc]
    constructor
    · simp only [Option.isSome_none, Bool.false_eq_true, false_iff]
      intro hcontra
      exact hc ((constructionOk_iff betas).mpr hcontra)
    · intro d hd
      exact Option.noConfusion hd

/-- Witness for `construction_validity` at betas = [1/2]. -/
theorem construction_validity_witness :
    ((mkGaussianDiffusion [(1:ℝ)/2] "noisepred").isSome ↔
        [(1:ℝ)/2] ≠ [] ∧ ∀ b ∈ [(1:ℝ)/2], 0 < b ∧ b ≤ 1) ∧
      ∀ d, mkGaussianDiffusion [(1:ℝ)/2] "noisepred" = some d →
        d.betas = [(1:ℝ)/2] ∧ d.loss_type = "noisepred" :=
  construction_validity _ _

/-- C9: a `loss_type` other than `'noisepred'` is accepted at construction
(the constructor never inspects it), but `p_losses`, `p_mean_variance`,
`p_sample` and the sampling loop `p_sample_loop` all fail with the
unsupported-kind error (`none`). -/
theorem loss_type_dispatch {B H W C : ℕ} (betas : List ℝ) (lt : String)
    (f : DenoiseFn B H W C) (x_start x noise : Tensor B H W C)
    (t : Fin B → ℕ) (clip : Bool) (nf : Tensor B H W C)
    (ns : Fin H → Fin W → Fin C → ℝ) (r : Bool)
    (nloop : ℕ → Tensor B H W C) (nsloop : ℕ → Fin H → Fin W → Fin C → ℝ)
    (img0 : Tensor B H W C)
    (hlt : lt ≠ "noisepred") (hβ : constructionOk betas) :
    mkGaussianDiffusion betas lt = some ⟨betas, lt⟩ ∧
      p_losses ⟨betas, lt⟩ f x_start t noise = none ∧
      p_mean_variance ⟨betas, lt⟩ f x t clip = none ∧
      p_sample ⟨betas, lt⟩ f x t clip nf ns r = none ∧
      p_sample_loop ⟨betas, lt⟩ f nloop nsloop img0 = none := by
  refine ⟨by simp [mkGaussianDiffusion, hβ], by simp [p_losses, hlt],
    by simp [p_mean_variance, hlt], by simp [p_sample, hlt], ?_⟩
  have hne : betas ≠ [] := ((constructionOk_iff betas).mp hβ).1
  obtain ⟨n, hn⟩ : ∃ n, num_timesteps (⟨betas, lt⟩ : GaussianDiffusion) = n + 1 := by
    unfold num_timesteps
    cases betas with
    | nil => exact absurd rfl hne
    | cons a l => exact ⟨l.length, rfl⟩
  unfold p_sample_loop
  rw [hn]
  simp [p_sample_loop_go, p_sample, hlt]

/-- Witness for `loss_type_dispatch`: betas = [1/2], `loss_type = "kl"`. -/
theorem loss_type_dispatch_witness :
    mkGaussianDiffusion [(1:ℝ)/2] "kl" = some ⟨[(1:ℝ)/2], "kl"⟩ ∧
      p_losses ⟨[(1:ℝ)/2], "kl"⟩ ((fun x _ => x) : DenoiseFn 1 1 1 1)
        (fun _ _ _ _ => 0) (fun _ => 0) (fun _ _ _ _ => 0) = none ∧
      p_mean_variance ⟨[(1:ℝ)/2], "kl"⟩ ((fun x _ => x) : DenoiseFn 1 1 1 1)
        (fun _ _ _ _ => 0) (fun _ => 0) true = none ∧
      p_sample ⟨[(1:ℝ)/2], "kl"⟩ ((fun x _ => x) : DenoiseFn 1 1 1 1)
        (fun _ _ _ _ => 0) (fun _ => 0) true (fun _ _ _ _ => 0)
        (fun _ _ _ => 0) false = none ∧
      p_sample_loop ⟨[(1:ℝ)/2], "kl"⟩ ((fun x _ => x) : DenoiseFn 1 1 1 1)
        (fun _ _ _ _ _ => 0) (fun _ _ _ _ => 0) (fun _ _ _ _ => 0) = none :=
  loss_type_dispatch [(1:ℝ)/2] "kl" ((fun x _ => x) : DenoiseFn 1 1 1 1)
    (fun _ _ _ _ => 0) (fun _ _ _ _ => 0) (fun _ _ _ _ => 0) (fun _ => 0) true
    (fun _ _ _ _ => 0) (fun _ _ _ => 0) false (fun _ _ _ _ _ => 0)
    (fun _ _ _ _ => 0) (fun _ _ _ _ => 0) (by decide) ⟨by norm_num, rfl⟩

lemma p_sample_loop_go_eq {B H W C : ℕ} (d : GaussianDiffusion)
    (f : DenoiseFn B H W C) (ns : ℕ → Tensor B H W C)
    (nss : ℕ → Fin H → Fin W → Fin C → ℝ) (hlt : d.loss_type = "noisepred") :
    ∀ (n : ℕ) (img : Tensor B H W C),
      p_sample_loop_go d f ns nss n img =
        some (((List.range n).reverse).foldl
          (fun im i => p_sample_core d f im (fun _ => i) true (ns i) (nss i) false)
          img) := by
  intro n
  induction n with
  | zero => intro img; simp [p_sample_loop_go]
  | succ n ih =>
    intro img
    have hps : p_sample d f img (fun _ => n) true (ns n) (nss n) false =
        some (p_sample_core d f img (fun _ => n) true (ns n) (nss n) false) := by
      simp [p_sample, hlt]
    rw [p_sample_loop_go, hps]
    simp only [Option.some_bind]
    rw [ih, List.range_succ, List.reverse_append]
    simp

/-- C2: for a `GaussianDiffusion` with `T = num_timesteps > 0` timesteps (and
the implemented `noisepred` parameterization), `p_sample_loop` terminates and
equals the fold of `p_sample` over the countdown `t = T-1, ..., 0` — the
reverse of `range T`, a list of length exactly `T` — each step consuming the
previous step's output starting from the initial noise draw `img0`; the
result's shape `[B,H,W,C]` is that of `img0` by the `Tensor` type. -/
theorem p_sample_loop_step_count {B H W C : ℕ} (d : GaussianDiffusion)
    (f : DenoiseFn B H W C) (ns : ℕ → Tensor B H W C)
    (nss : ℕ → Fin H → Fin W → Fin C → ℝ) (img0 : Tensor B H W C)
    (hlt : d.loss_type = "noisepred") (_hT : 0 < num_timesteps d) :
    p_sample_loop d f ns nss img0 =
        some (((List.range (num_timesteps d)).reverse).foldl
          (fun im i => p_sample_core d f im (fun _ => i) true (ns i) (nss i) false)
          img0) ∧
      ((List.range (num_timesteps d)).reverse).length = num_timesteps d :=
  ⟨p_sample_loop_go_eq d f ns nss hlt _ img0, by simp⟩

/-- Witness for `p_sample_loop_step_count`: betas = [1/2], identity denoiser,
zero noise streams and zero initial draw on shape [1,1,1,1]. -/
theorem p_sample_loop_step_count_witness :
    p_sample_loop ⟨[(1:ℝ)/2], "noisepred"⟩ ((fun x _ => x) : DenoiseFn 1 1 1 1)
        (fun _ _ _ _ _ => 0) (fun _ _ _ _ => 0) (fun _ _ _ _ => 0) =
        some (((List.range (num_timesteps ⟨[(1:ℝ)/2], "noisepred"⟩)).reverse).foldl
          (fun im i => p_sample_core ⟨[(1:ℝ)/2], "noisepred"⟩ (fun x _ => x) im
            (fun _ => i) true (((fun _ _ _ _ _ => 0) : ℕ → Tensor 1 1 1 1) i)
            (((fun _ _ _ _ => 0) : ℕ → Fin 1 → Fin 1 → Fin 1 → ℝ) i) false)
          (fun _ _ _ _ => 0)) ∧
      ((List.range (num_timesteps ⟨[(1:ℝ)/2], "noisepred"⟩)).reverse).length =
        num_timesteps ⟨[(1:ℝ)/2], "noisepred"⟩ :=
  p_sample_loop_step_count ⟨[(1:ℝ)/2], "noisepred"⟩
    ((fun x _ => x) : DenoiseFn 1 1 1 1) (fun _ _ _ _ _ => 0)
    (fun _ _ _ _ => 0) (fun _ _ _ _ => 0) rfl (by simp [num_timesteps])

lemma intsDown_of_lt (a b : ℤ) (h : a < b) : intsDown a b = [] := by
  unfold intsDown
  have h0 : (a + 1 - b).toNat = 0 := by omega
  simp [h0]

lemma intsDown_cons (a b : ℤ) (h : b ≤ a) : intsDown a b = a :: intsDown (a - 1) b := by
  unfold intsDown
  have h1 : (a + 1 - b).toNat = (a - 1 + 1 - b).toNat + 1 := by omega
  rw [h1, List.range_succ_eq_map, List.map_cons, List.map_map]
  refine congrArg₂ List.cons (by simp) ?_
  apply List.map_congr_left
  intro k _
  simp only [Function.comp_apply]
  push_cast
  ring

lemma length_intsDown (a b : ℤ) : (intsDown a b).length = (a + 1 - b).toNat := by
  simp [intsDown]

lemma mem_intsDown {a b x : ℤ} (h : x ∈ intsDown a b) : b ≤ x ∧ x ≤ a := by
  unfold intsDown at h
  simp only [List.mem_map, List.mem_range] at h
  obtain ⟨k, hk, rfl⟩ := h
  omega

lemma whileDownSteps_eq (b : ℤ) (cond : ℤ → Bool)
    (hc : ∀ x, cond x = decide (b ≤ x)) :
    ∀ (fuel : ℕ) (t : ℤ), (t + 1 - b).toNat ≤ fuel →
      whileDownSteps cond fuel t = intsDown t b := by
  intro fuel
  induction fuel with
  | zero =>
    intro t hft
    have hlt : t < b := by omega
    rw [whileDownSteps, intsDown_of_lt _ _ hlt]
  | succ n ih =>
    intro t hft
    rw [whileDownSteps]
    simp only [hc]
    by_cases hbt : b ≤ t
    · rw [if_pos (by simp [hbt]), ih (t - 1) (by omega), intsDown_cons _ _ hbt]
    · rw [if_neg (by simp [hbt]), intsDown_of_lt _ _ (by omega)]

/-- C3 (amended): in `p_sample_loop_trajectory` with `0 ≤ repeat_noise_steps ≤ T`,
the sequence of `(t, repeat_noise)` arguments of the `p_sample` calls consists
of the first `repeat_noise_steps` steps (`t = T-1` down to `T-repeat_noise_steps`)
with `repeat_noise = true` followed by the remaining steps
(`t = T-repeat_noise_steps-1` down to `0`) with `repeat_noise = false`:
a step uses `repeat_noise = true` exactly when its timestep satisfies
`T - repeat_noise_steps ≤ t`, i.e. when more than `T - repeat_noise_steps`
steps remain — not when more than `repeat_noise_steps` steps remain, as the
claim states (see the counterexample). -/
theorem trajectory_repeat_flag (T rns : ℤ) (h0 : 0 ≤ rns) (h1 : rns ≤ T) :
    p_sample_trajectory_flags T rns =
        (intsDown (T - 1) (T - rns)).map (fun t => (t, true)) ++
          (intsDown (T - rns - 1) 0).map (fun t => (t, false)) ∧
      ∀ p ∈ p_sample_trajectory_flags T rns, p.2 = true ↔ T - rns ≤ p.1 := by
  have hp1 : whileDownSteps (fun t => decide (T - t ≤ rns)) (rns.toNat + 1) (T - 1) =
      intsDown (T - 1) (T - rns) := by
    apply whileDownSteps_eq (T - rns)
    · intro x
      rw [decide_eq_decide]
      omega
    · omega
  have heq : p_sample_trajectory_flags T rns =
      (intsDown (T - 1) (T - rns)).map (fun t => (t, true)) ++
        (intsDown (T - rns - 1) 0).map (fun t => (t, false)) := by
    unfold p_sample_trajectory_flags
    simp only [hp1, length_intsDown]
    have hlen : (((T - 1 + 1 - (T - rns)).toNat : ℕ) : ℤ) = rns := by omega
    rw [hlen]
    have ht1 : T - 1 - rns = T - rns - 1 := by ring
    rw [ht1]
    have hp2 : whileDownSteps (fun t => decide (0 ≤ t)) ((T - rns - 1).toNat + 1)
        (T - rns - 1) = intsDown (T - rns - 1) 0 := by
      apply whileDownSteps_eq 0
      · intro x; rfl
      · omega
    rw [hp2]
  refine ⟨heq, ?_⟩
  intro p hp
  rw [heq] at hp
  rcases List.mem_append.mp hp with hmem | hmem
  · obtain ⟨t', ht', rfl⟩ := List.mem_map.mp hmem
    have hb := mem_intsDown ht'
    simp only [true_iff]
    omega
  · obtain ⟨t', ht', rfl⟩ := List.mem_map.mp hmem
    have hb := mem_intsDown ht'
    simp only [Bool.false_eq_true, false_iff]
    omega

/-- Witness for `trajectory_repeat_flag` at T = 3, repeat_noise_steps = 1. -/
theorem trajectory_repeat_flag_witness :
    p_sample_trajectory_flags 3 1 =
        (intsDown (3 - 1) (3 - 1)).map (fun t => (t, true)) ++
          (intsDown (3 - 1 - 1) 0).map (fun t => (t, false)) ∧
      ∀ p ∈ p_sample_trajectory_flags 3 1, p.2 = true ↔ (3 : ℤ) - 1 ≤ p.1 :=
  trajectory_repeat_flag 3 1 (by decide) (by decide)

/-- C3 as stated is false: with T = 3 and repeat_noise_steps = 1, the step at
timestep t = 1 still has 2 > 1 = repeat_noise_steps steps remaining (t = 1 and
t = 0), yet `p_sample` is invoked there with `repeat_noise = false`, not
`true`: only the first `repeat_noise_steps` steps of the loop repeat noise. -/
theorem trajectory_repeat_flag_cex :
    ((1 : ℤ), false) ∈ p_sample_trajectory_flags 3 1 ∧
      ((1 : ℤ), true) ∉ p_sample_trajectory_flags 3 1 ∧ (1 : ℤ) + 1 > 1 := by
  decide

end DiffusionTF


